import Mathlib

/-!
Verification development for the Snowman benchmarking harness
(`src/src/Snowman/benchmark.cpp`).  The CLI glue in that file is embedded
directly; the simulation cores (`SimGenome`, `ReadSim`, `BamSplitter`) are
not part of the repository's files and are modelled from the spec where a
claim needs them.
-/

namespace Snowman

attribute [local semireducible] Rat.add Rat.mul Rat.sub Rat.inv Rat.ofScientific

instance {ε α : Type} [DecidableEq ε] [DecidableEq α] : DecidableEq (Except ε α) := fun a b =>
  match a, b with
  | .error x, .error y =>
    if h : x = y then isTrue (by rw [h]) else isFalse (by simp [h])
  | .ok x, .ok y =>
    if h : x = y then isTrue (by rw [h]) else isFalse (by simp [h])
  | .error _, .ok _ => isFalse (by simp)
  | .ok _, .error _ => isFalse (by simp)

/-! ## Numeric list parsing (`parseErrorRates`, benchmark.cpp lines 543-559) -/

/-- Value of a digit string, most significant first. -/
def digitsVal (l : List Char) : Nat :=
  l.foldl (fun a c => 10 * a + (c.toNat - 48)) 0

/-- Model of `std::stod` on the decimal forms `[ws][+|-]digits[.digits]`:
`none` exactly when no initial numeric prefix exists (the `catch` branch of
`parseErrorRates`); otherwise the value of the longest numeric prefix. -/
def stodChars (cs0 : List Char) : Option ℚ :=
  let cs := cs0.dropWhile (fun c => c = ' ' || c = '\t')
  let sgncs : ℚ × List Char :=
    match cs with
    | '-' :: t => (-1, t)
    | '+' :: t => (1, t)
    | _ => (1, cs)
  let ip := sgncs.2.takeWhile Char.isDigit
  let rest := sgncs.2.dropWhile Char.isDigit
  let fp : List Char :=
    match rest with
    | '.' :: t => t.takeWhile Char.isDigit
    | _ => []
  if ip.isEmpty && fp.isEmpty then none
  else some (sgncs.1 * ((digitsVal ip : ℚ) + (digitsVal fp : ℚ) / (10 : ℚ) ^ fp.length))

def stod (s : String) : Option ℚ := stodChars s.toList

/-- Segments of a character list between commas (every comma produces a cut). -/
def splitCommaAux : List Char → List Char → List (List Char)
  | [], acc => [acc.reverse]
  | c :: t, acc =>
    if c = ',' then acc.reverse :: splitCommaAux t []
    else splitCommaAux t (c :: acc)

/-- The token list `std::getline(is, val, ',')` yields on string `s`: the
comma-separated segments, except that the final empty segment produced by an
empty string or a trailing comma is not returned (`getline` fails at eof
before extracting anything). -/
def benchSplit (s : String) : List String :=
  let segs := splitCommaAux s.toList []
  (if segs.getLast? = some [] then segs.dropLast else segs).map String.mk

/-- Errors on which `benchmark.cpp` prints a message and exits. -/
inductive BenchErr
  | convert (val : String)
  | emptyFractions
  | regionParse
deriving DecidableEq

/-- Conversion of the token list, stopping at the first token `std::stod`
rejects, as the loop of `parseErrorRates` does. -/
def parseRatesList : List String → Except BenchErr (List ℚ)
  | [] => .ok []
  | v :: rest =>
    match stod v with
    | some d =>
      match parseRatesList rest with
      | .ok l => .ok (d :: l)
      | .error e => .error e
    | none => .error (.convert v)

/-- `parseErrorRates` (benchmark.cpp lines 543-559): split on commas, convert
each token, exit reporting the value on the first failed conversion. -/
def parseErrorRates (s : String) : Except BenchErr (List ℚ) :=
  parseRatesList (benchSplit s)

/-! ## Option state and defaults (benchmark.cpp lines 38-62, 468-540) -/

def DEFAULT_SNV_RATE : ℚ := 1/100
def DEFAULT_DEL_RATE : ℚ := 1/20
def DEFAULT_INS_RATE : ℚ := 1/20
def DEFAULT_COV : ℚ := 10

inductive BMode
  | assembly
  | simbreaks
  | splitbam
deriving DecidableEq

/-- The option state after `getopt` has filled the raw strings, together with
the two environment facts the control flow branches on (`read_access_test` on
the fractions argument, and whether the region file/string parses). -/
structure RawOpts where
  snv_er : String
  del_er : String
  ins_er : String
  covs : String
  frac : String
  seed : Nat
  mode : Option BMode
  bam : String
  fracIsFile : Bool
  regionsGiven : Bool
  regionsOk : Bool
deriving DecidableEq

structure BenchConfig where
  snv_error_rates : List ℚ
  del_error_rates : List ℚ
  ins_error_rates : List ℚ
  coverages : List ℚ
  fractions : List ℚ
  frac_bed_file : String
deriving DecidableEq

/-- The default fallback of benchmark.cpp lines 526-534: an empty parsed list
is replaced by the one-element default list. -/
def withDefault (l : List ℚ) (d : ℚ) : List ℚ :=
  if l = [] then [d] else l

/-- `parseBenchmarkOptions` (benchmark.cpp lines 468-540) after `getopt`:
parse the four rate strings, then the fractions string (unless it names a
readable file, in which case it is kept as the BED path), apply the default
fallbacks, and reject a split-bam run with no fraction specification. -/
def parseBenchmarkOptions (o : RawOpts) : Except BenchErr BenchConfig :=
  match parseErrorRates o.snv_er with
  | .error e => .error e
  | .ok snv =>
  match parseErrorRates o.del_er with
  | .error e => .error e
  | .ok del =>
  match parseErrorRates o.ins_er with
  | .error e => .error e
  | .ok ins =>
  match parseErrorRates o.covs with
  | .error e => .error e
  | .ok cov =>
  match (if o.fracIsFile then .ok ([] : List ℚ) else parseErrorRates o.frac) with
  | .error e => .error e
  | .ok fracs =>
    let bed := if o.fracIsFile then o.frac else ""
    if fracs = [] ∧ bed = "" ∧ o.mode = some BMode.splitbam then
      .error .emptyFractions
    else
      .ok ⟨withDefault snv DEFAULT_SNV_RATE,
           withDefault del DEFAULT_DEL_RATE,
           withDefault ins DEFAULT_INS_RATE,
           withDefault cov DEFAULT_COV,
           fracs, bed⟩

/-! ## The run trace (`runBenchmark`, benchmark.cpp lines 127-200) -/

/-- The seed actually passed to `srand` (benchmark.cpp lines 179-181):
an option seed of 0 is replaced by the wall clock. -/
def effectiveSeed (seed wallClock : Nat) : Nat :=
  if seed = 0 then wallClock else seed

inductive BEvent
  | banner
  | errMsg (e : BenchErr)
  | openBam
  | srand (n : Nat)
  | logSeed (n : Nat)
  | readFracBed
  | assemblyWork
  | simBreaksWork
  | splitWork
deriving DecidableEq

def modeWork : Option BMode → List BEvent
  | some .assembly => [.assemblyWork]
  | some .simbreaks => [.simBreaksWork]
  | some .splitbam => [.splitWork]
  | none => []

/-- Observable event trace of `runBenchmark` (benchmark.cpp lines 127-200):
option parsing first (a failure exits with its message and nothing else
happens), then the banner, the BAM opening, region parsing (a failure exits),
the single `srand` call with the logged seed, the fractions BED read, and
finally the selected mode's work. -/
def runBenchmark (o : RawOpts) (t : Nat) : List BEvent :=
  match parseBenchmarkOptions o with
  | .error e => [.errMsg e]
  | .ok cfg =>
    [BEvent.banner]
    ++ (if o.bam = "" then [] else [BEvent.openBam])
    ++ (if o.regionsGiven = true ∧ o.regionsOk = false then [BEvent.errMsg .regionParse]
        else [BEvent.srand (effectiveSeed o.seed t), BEvent.logSeed (effectiveSeed o.seed t)]
          ++ (if cfg.frac_bed_file ≠ "" ∧ o.mode = some BMode.splitbam then [BEvent.readFracBed] else [])
          ++ modeWork o.mode)

def isSrand : BEvent → Bool
  | .srand _ => true
  | _ => false

def isSimWork : BEvent → Bool
  | .assemblyWork => true
  | .simBreaksWork => true
  | .splitWork => true
  | _ => false

/-- The input string holds a token `std::stod` cannot convert. -/
def hasMalformed (s : String) : Prop :=
  ∃ v ∈ benchSplit s, stod v = none

lemma parseRatesList_error_form : ∀ (ts : List String) (e : BenchErr),
    parseRatesList ts = .error e → ∃ v ∈ ts, stod v = none ∧ e = .convert v
  | [], e, h => by simp [parseRatesList] at h
  | v :: rest, e, h => by
    rcases hs : stod v with _ | d
    · refine ⟨v, by simp, hs, ?_⟩
      simp [parseRatesList, hs] at h
      exact h.symm
    · rcases hr : parseRatesList rest with e2 | l
      · have he : e2 = e := by
          simp [parseRatesList, hs, hr] at h
          exact h
        obtain ⟨w, hw, hwn, hwe⟩ := parseRatesList_error_form rest e2 hr
        exact ⟨w, by simp [hw], hwn, by rw [← he]; exact hwe⟩
      · simp [parseRatesList, hs, hr] at h

lemma parseRatesList_ok_all : ∀ (ts : List String) (l : List ℚ),
    parseRatesList ts = .ok l → ∀ v ∈ ts, stod v ≠ none
  | [], _, _ => by simp
  | v :: rest, l, h => by
    rcases hs : stod v with _ | d
    · simp [parseRatesList, hs] at h
    · rcases hr : parseRatesList rest with e2 | l2
      · simp [parseRatesList, hs, hr] at h
      · intro w hw
        rcases List.mem_cons.mp hw with hw | hw
        · rw [hw]; simp [hs]
        · exact parseRatesList_ok_all rest l2 hr w hw

lemma parseErrorRates_error_of_malformed (s : String) (h : hasMalformed s) :
    ∃ v, stod v = none ∧ parseErrorRates s = .error (.convert v) := by
  obtain ⟨v, hv, hvn⟩ := h
  rcases hp : parseErrorRates s with e | l
  · obtain ⟨w, _, hwn, hwe⟩ := parseRatesList_error_form _ _ hp
    exact ⟨w, hwn, by simp [hp, hwe]⟩
  · exact absurd hvn (parseRatesList_ok_all _ _ hp v hv)

lemma parseOpts_error_of_malformed (o : RawOpts)
    (h : hasMalformed o.snv_er ∨ hasMalformed o.del_er ∨ hasMalformed o.ins_er
         ∨ hasMalformed o.covs ∨ (o.fracIsFile = false ∧ hasMalformed o.frac)) :
    ∃ v, stod v = none ∧ parseBenchmarkOptions o = .error (.convert v) := by
  rcases h1 : parseErrorRates o.snv_er with e1 | l1
  · obtain ⟨v, hv, hvn, hve⟩ := parseRatesList_error_form _ _ h1
    exact ⟨v, hvn, by simp [parseBenchmarkOptions, h1, hve]⟩
  · rcases h2 : parseErrorRates o.del_er with e2 | l2
    · obtain ⟨v, hv, hvn, hve⟩ := parseRatesList_error_form _ _ h2
      exact ⟨v, hvn, by simp [parseBenchmarkOptions, h1, h2, hve]⟩
    · rcases h3 : parseErrorRates o.ins_er with e3 | l3
      · obtain ⟨v, hv, hvn, hve⟩ := parseRatesList_error_form _ _ h3
        exact ⟨v, hvn, by simp [parseBenchmarkOptions, h1, h2, h3, hve]⟩
      · rcases h4 : parseErrorRates o.covs with e4 | l4
        · obtain ⟨v, hv, hvn, hve⟩ := parseRatesList_error_form _ _ h4
          exact ⟨v, hvn, by simp [parseBenchmarkOptions, h1, h2, h3, h4, hve]⟩
        · have hfile : o.fracIsFile = false := by
            rcases h with h | h | h | h | h
            · exact absurd (parseErrorRates_error_of_malformed _ h) (by simp [h1])
            · exact absurd (parseErrorRates_error_of_malformed _ h) (by simp [h2])
            · exact absurd (parseErrorRates_error_of_malformed _ h) (by simp [h3])
            · exact absurd (parseErrorRates_error_of_malformed _ h) (by simp [h4])
            · exact h.1
          have hfr : hasMalformed o.frac := by
            rcases h with h | h | h | h | h
            · exact absurd (parseErrorRates_error_of_malformed _ h) (by simp [h1])
            · exact absurd (parseErrorRates_error_of_malformed _ h) (by simp [h2])
            · exact absurd (parseErrorRates_error_of_malformed _ h) (by simp [h3])
            · exact absurd (parseErrorRates_error_of_malformed _ h) (by simp [h4])
            · exact h.2
          obtain ⟨v, hvn, hvp⟩ := parseErrorRates_error_of_malformed _ hfr
          exact ⟨v, hvn, by simp [parseBenchmarkOptions, h1, h2, h3, h4, hfile, hvp]⟩

/-- C6: any rate/coverage/fraction list with an unconvertible element makes
the run fail fatally, reporting that value, with no simulation work (and no
other event at all) in the trace. -/
theorem malformed_list_fails_before_work (o : RawOpts) (t : Nat)
    (h : hasMalformed o.snv_er ∨ hasMalformed o.del_er ∨ hasMalformed o.ins_er
         ∨ hasMalformed o.covs ∨ (o.fracIsFile = false ∧ hasMalformed o.frac)) :
    ∃ v, stod v = none ∧ runBenchmark o t = [BEvent.errMsg (.convert v)]
      ∧ ∀ e ∈ runBenchmark o t, isSimWork e = false := by
  obtain ⟨v, hvn, hvp⟩ := parseOpts_error_of_malformed o h
  refine ⟨v, hvn, by simp [runBenchmark, hvp], ?_⟩
  intro e he
  simp [runBenchmark, hvp] at he
  simp [he, isSimWork]

/-- C6 witness at a concrete malformed coverage list. -/
theorem malformed_list_fails_before_work_witness :
    ∃ v, stod v = none
      ∧ runBenchmark ⟨"", "", "", "5,xx", "", 7, some .assembly, "", false, false, true⟩ 3
          = [BEvent.errMsg (.convert v)]
      ∧ ∀ e ∈ runBenchmark ⟨"", "", "", "5,xx", "", 7, some .assembly, "", false, false, true⟩ 3,
          isSimWork e = false :=
  malformed_list_fails_before_work _ 3
    (Or.inr (Or.inr (Or.inr (Or.inl ⟨"xx", by decide, by decide⟩))))

/-- C7: a split-bam run whose fraction list parses to nothing and which names
no fractions BED file exits with the empty-fraction-specification error and
the trace holds no partitioning work. -/
theorem empty_fraction_spec_fails (o : RawOpts) (t : Nat)
    (l1 l2 l3 l4 : List ℚ)
    (hm : o.mode = some BMode.splitbam)
    (hf : o.fracIsFile = false)
    (h1 : parseErrorRates o.snv_er = .ok l1)
    (h2 : parseErrorRates o.del_er = .ok l2)
    (h3 : parseErrorRates o.ins_er = .ok l3)
    (h4 : parseErrorRates o.covs = .ok l4)
    (hfr : parseErrorRates o.frac = .ok []) :
    runBenchmark o t = [BEvent.errMsg .emptyFractions]
      ∧ BEvent.splitWork ∉ runBenchmark o t := by
  have hp : parseBenchmarkOptions o = .error .emptyFractions := by
    simp [parseBenchmarkOptions, h1, h2, h3, h4, hf, hfr, hm]
  constructor
  · simp [runBenchmark, hp]
  · simp [runBenchmark, hp]

/-- C7 witness: the default split-bam invocation with no `-f` argument. -/
theorem empty_fraction_spec_fails_witness :
    runBenchmark ⟨"", "", "", "", "", 7, some .splitbam, "", false, false, true⟩ 3
        = [BEvent.errMsg .emptyFractions]
      ∧ BEvent.splitWork
          ∉ runBenchmark ⟨"", "", "", "", "", 7, some .splitbam, "", false, false, true⟩ 3 :=
  empty_fraction_spec_fails _ 3 [] [] [] [] rfl rfl rfl rfl rfl rfl rfl

/-- C4: an empty parsed list for a rate category falls back to that
category's default constant (SNV 1/100, deletion 1/20, insertion 1/20,
coverage 10); a non-empty parsed list is kept as given. -/
theorem empty_rate_list_defaults (o : RawOpts) (cfg : BenchConfig)
    (snv del ins cov : List ℚ)
    (hok : parseBenchmarkOptions o = .ok cfg)
    (h1 : parseErrorRates o.snv_er = .ok snv)
    (h2 : parseErrorRates o.del_er = .ok del)
    (h3 : parseErrorRates o.ins_er = .ok ins)
    (h4 : parseErrorRates o.covs = .ok cov) :
    cfg.snv_error_rates = (if snv = [] then [DEFAULT_SNV_RATE] else snv)
    ∧ cfg.del_error_rates = (if del = [] then [DEFAULT_DEL_RATE] else del)
    ∧ cfg.ins_error_rates = (if ins = [] then [DEFAULT_INS_RATE] else ins)
    ∧ cfg.coverages = (if cov = [] then [DEFAULT_COV] else cov)
    ∧ DEFAULT_SNV_RATE = 1/100 ∧ DEFAULT_DEL_RATE = 1/20
    ∧ DEFAULT_INS_RATE = 1/20 ∧ DEFAULT_COV = 10 := by
  rcases hff : o.fracIsFile with _ | _ <;>
    simp only [parseBenchmarkOptions, h1, h2, h3, h4, hff] at hok
  · rcases h6 : parseErrorRates o.frac with e6 | l6 <;>
      simp only [Bool.false_eq_true, if_false, h6] at hok
    · exact absurd hok (by simp)
    · split at hok
      · exact absurd hok (by simp)
      · rw [Except.ok.injEq] at hok
        subst hok
        refine ⟨?_, ?_, ?_, ?_, rfl, rfl, rfl, rfl⟩ <;> simp [withDefault]
  · simp only [if_true] at hok
    split at hok
    · exact absurd hok (by simp)
    · rw [Except.ok.injEq] at hok
      subst hok
      refine ⟨?_, ?_, ?_, ?_, rfl, rfl, rfl, rfl⟩ <;> simp [withDefault]

/-- C4 witness: explicit coverages are kept, the other three fall back. -/
theorem empty_rate_list_defaults_witness :
    (BenchConfig.mk [DEFAULT_SNV_RATE] [DEFAULT_DEL_RATE] [DEFAULT_INS_RATE] [3, 4] [] "").snv_error_rates
        = (if ([] : List ℚ) = [] then [DEFAULT_SNV_RATE] else [])
    ∧ (BenchConfig.mk [DEFAULT_SNV_RATE] [DEFAULT_DEL_RATE] [DEFAULT_INS_RATE] [3, 4] [] "").del_error_rates
        = (if ([] : List ℚ) = [] then [DEFAULT_DEL_RATE] else [])
    ∧ (BenchConfig.mk [DEFAULT_SNV_RATE] [DEFAULT_DEL_RATE] [DEFAULT_INS_RATE] [3, 4] [] "").ins_error_rates
        = (if ([] : List ℚ) = [] then [DEFAULT_INS_RATE] else [])
    ∧ (BenchConfig.mk [DEFAULT_SNV_RATE] [DEFAULT_DEL_RATE] [DEFAULT_INS_RATE] [3, 4] [] "").coverages
        = (if ([3, 4] : List ℚ) = [] then [DEFAULT_COV] else [3, 4])
    ∧ DEFAULT_SNV_RATE = 1/100 ∧ DEFAULT_DEL_RATE = 1/20
    ∧ DEFAULT_INS_RATE = 1/20 ∧ DEFAULT_COV = 10 :=
  empty_rate_list_defaults
    ⟨"", "", "", "3,4", "", 7, some .assembly, "", false, false, true⟩
    _ [] [] [] [3, 4] (by decide) rfl rfl rfl (by decide)

/-- C5: when parsing succeeds and the region argument does not abort the run,
the trace seeds the shared pseudo-random stream exactly once, with the
explicit seed when it is nonzero and with the wall clock otherwise, and logs
exactly the seed value it used. -/
theorem rng_seeded_once_and_logged (o : RawOpts) (t : Nat) (cfg : BenchConfig)
    (hok : parseBenchmarkOptions o = .ok cfg)
    (hreg : o.regionsGiven = false ∨ o.regionsOk = true) :
    (runBenchmark o t).filter isSrand = [BEvent.srand (effectiveSeed o.seed t)]
    ∧ BEvent.logSeed (effectiveSeed o.seed t) ∈ runBenchmark o t
    ∧ (o.seed ≠ 0 → effectiveSeed o.seed t = o.seed)
    ∧ (o.seed = 0 → effectiveSeed o.seed t = t) := by
  have hregc : ¬(o.regionsGiven = true ∧ o.regionsOk = false) := by
    rcases hreg with h | h <;> simp [h]
  refine ⟨?_, ?_, fun h => by simp [effectiveSeed, h], fun h => by simp [effectiveSeed, h]⟩
  · simp only [runBenchmark, hok, hregc, if_false, List.filter_append, List.filter_cons]
    have hmw : (modeWork o.mode).filter isSrand = [] := by
      rcases o.mode with _ | m
      · rfl
      · cases m <;> rfl
    split <;> split <;> simp_all [isSrand, hmw]
  · simp only [runBenchmark, hok, hregc, if_false]
    simp

/-- C5 witness at a nonzero explicit seed. -/
theorem rng_seeded_once_and_logged_witness :
    (runBenchmark ⟨"", "", "", "", "", 7, none, "", false, false, true⟩ 3).filter isSrand
        = [BEvent.srand (effectiveSeed 7 3)]
    ∧ BEvent.logSeed (effectiveSeed 7 3)
        ∈ runBenchmark ⟨"", "", "", "", "", 7, none, "", false, false, true⟩ 3
    ∧ ((7 : Nat) ≠ 0 → effectiveSeed 7 3 = 7)
    ∧ ((7 : Nat) = 0 → effectiveSeed 7 3 = 3) :=
  rng_seeded_once_and_logged _ 3
    ⟨[DEFAULT_SNV_RATE], [DEFAULT_DEL_RATE], [DEFAULT_INS_RATE], [DEFAULT_COV], [], ""⟩
    (by decide) (Or.inl rfl)

/-! ## The shared pseudo-random stream (`srand`/`rand`) and the fastq
emission phase of `genBreaks` (benchmark.cpp lines 256-269) -/

/-- Model of the C library `rand`: one step of the reference linear
congruential generator, 31-bit state. -/
def lcgNext (s : Nat) : Nat := (s * 1103515245 + 12345) % 2147483648

/-- The stream of `rand()` values after `srand seed`. -/
def randSeq (seed : Nat) : Nat → Nat
  | 0 => lcgNext (seed % 2147483648)
  | k + 1 => lcgNext (randSeq seed k)

/-- One fastq record as `genBreaks` writes it: header from the running
counter, the read, the `+` line, and a quality string drawn from the learned
pool at index `rand() % pool.length` — `none` when that lookup is undefined
(the modulo by zero of an empty pool in the source). -/
def fastqRecord (pool : List String) (g : Nat → Nat) (k : Nat) (i : Nat) (read : String) :
    Option String :=
  match pool.get? (g k % pool.length) with
  | some q => some ("@r" ++ toString i ++ "\n" ++ read ++ "\n+\n" ++ q ++ "\n")
  | none => none

def fastqAux (pool : List String) (g : Nat → Nat) : List String → Nat → Nat → Option (List String)
  | [], _, _ => some []
  | read :: rest, k, i =>
    match fastqRecord pool g k i read with
    | some rec1 =>
      match fastqAux pool g rest (k + 1) (i + 1) with
      | some l => some (rec1 :: l)
      | none => none
    | none => none

/-- The fastq emission phase of `genBreaks` (benchmark.cpp lines 256-269):
the two paired-end files, together with the error messages this phase
reports.  The source guards nothing here, so the message list is always
empty; the result is `none` when a quality lookup was undefined. -/
def genBreaksFastqPhase (pool reads1 reads2 : List String) (g : Nat → Nat) :
    Option (List String × List String) × List String :=
  (match fastqAux pool g reads1 0 0 with
   | some f1 =>
     match fastqAux pool g reads2 reads1.length 0 with
     | some f2 => some (f1, f2)
     | none => none
   | none => none,
   [])

/-- The paired-end fastq output of a sim-breaks run as a function of the
explicit seed and the wall clock: `genBreaks` draws its quality strings from
the `rand()` stream seeded with `effectiveSeed` (benchmark.cpp lines
179-181, 261, 268). -/
def simBreaksFastq (seed t : Nat) (pool reads1 reads2 : List String) :
    Option (List String × List String) :=
  (genBreaksFastqPhase pool reads1 reads2 (randSeq (effectiveSeed seed t))).1

/-- C3 counterexample: with the explicit seed 0 the engine is not a
deterministic function of seed and parameters — two runs at wall clocks 1
and 2 produce different fastq bytes. -/
theorem fixed_seed_zero_not_reproducible :
    simBreaksFastq 0 1 ["IIII", "JJJJ"] ["ACGT"] [] ≠
      simBreaksFastq 0 2 ["IIII", "JJJJ"] ["ACGT"] [] := by decide

/-- C3 (amended): for every fixed explicit nonzero seed, two runs with
identical parameters produce byte-identical output files. -/
theorem fixed_nonzero_seed_reproducible (seed : Nat) (hs : seed ≠ 0)
    (t t' : Nat) (pool reads1 reads2 : List String) :
    simBreaksFastq seed t pool reads1 reads2 = simBreaksFastq seed t' pool reads1 reads2 := by
  simp [simBreaksFastq, effectiveSeed, hs]

/-- C3 witness at seed 42. -/
theorem fixed_nonzero_seed_reproducible_witness :
    simBreaksFastq 42 1 ["IIII", "JJJJ"] ["ACGT"] [] =
      simBreaksFastq 42 2 ["IIII", "JJJJ"] ["ACGT"] [] :=
  fixed_nonzero_seed_reproducible 42 (by decide) 1 2 ["IIII", "JJJJ"] ["ACGT"] []

/-- C9: a supplied seed of 0 is indistinguishable from an unset one — the
engine replaces it with the wall clock before seeding, every nonzero seed is
used as given, and at seed 0 (alone) two runs with identical parameters can
produce different outputs. -/
theorem seed_zero_means_wallclock :
    (∀ t, effectiveSeed 0 t = t)
    ∧ (∀ s t, s ≠ 0 → effectiveSeed s t = s)
    ∧ (∃ t t', simBreaksFastq 0 t ["IIII", "JJJJ"] ["ACGT"] [] ≠
        simBreaksFastq 0 t' ["IIII", "JJJJ"] ["ACGT"] []) := by
  refine ⟨fun t => rfl, fun s t hs => by simp [effectiveSeed, hs], 2, 3, by decide⟩

lemma fastqAux_isSome (pool : List String) (g : Nat → Nat) (hp : pool ≠ []) :
    ∀ (rs : List String) (k i : Nat), (fastqAux pool g rs k i).isSome = true := by
  intro rs
  induction rs with
  | nil => intro k i; rfl
  | cons r rest ih =>
    intro k i
    have hlt : g k % pool.length < pool.length := Nat.mod_lt _ (List.length_pos.mpr hp)
    obtain ⟨l, hl⟩ := Option.isSome_iff_exists.mp (ih (k + 1) (i + 1))
    simp [fastqAux, fastqRecord, List.getElem?_eq_getElem hlt, hl]

/-- C10 counterexample: at an empty quality pool (and a nonempty read list)
the fastq phase of `genBreaks` is undefined — the pool lookup at
`rand() % pool.length` is a modulo by zero — yet the phase reports nothing:
the source has no error branch to reach. -/
theorem quality_pool_empty_no_error_branch :
    (genBreaksFastqPhase [] ["ACGT"] [] (randSeq 7)).1 = none
    ∧ (genBreaksFastqPhase [] ["ACGT"] [] (randSeq 7)).2 = [] := by decide

/-- C10 (amended): the quality string of each emitted read is drawn by
indexing the learned pool at `rand() % pool.length`; this is well-defined
exactly when training produced a nonempty pool, and with an empty pool the
lookup is a modulo by zero (undefined), while the phase's reported error
messages are empty on every input — there is no error branch. -/
theorem quality_pool_precondition (pool reads1 reads2 : List String) (g : Nat → Nat) :
    (pool = [] → reads1 ≠ [] → (genBreaksFastqPhase pool reads1 reads2 g).1 = none)
    ∧ (pool ≠ [] → ((genBreaksFastqPhase pool reads1 reads2 g).1).isSome = true)
    ∧ (genBreaksFastqPhase pool reads1 reads2 g).2 = [] := by
  refine ⟨?_, ?_, rfl⟩
  · intro hp hr
    subst hp
    rcases reads1 with _ | ⟨r, rest⟩
    · exact absurd rfl hr
    · simp [genBreaksFastqPhase, fastqAux, fastqRecord]
  · intro hp
    obtain ⟨l1, h1⟩ := Option.isSome_iff_exists.mp (fastqAux_isSome pool g hp reads1 0 0)
    obtain ⟨l2, h2⟩ := Option.isSome_iff_exists.mp
      (fastqAux_isSome pool g hp reads2 reads1.length 0)
    simp [genBreaksFastqPhase, h1, h2]

/-! ## DatasetPartitioner (`BamSplitter`): modelled from the spec.
The class itself is not among the repository's files; `splitBam`
(benchmark.cpp lines 284-306) only drives it. -/

/-- Modelled from the spec: a read record of the input collection, carrying
the fields the partitioner consults (query name identifying the mate pair,
mate flag, mapped position). -/
structure BRead where
  qname : String
  firstMate : Bool
  pos : Nat
deriving DecidableEq

/-- Modelled from the spec: the bucket of a point of `[0,1)` within the
cumulative intervals of the fraction list (`none`: the dropped residual
beyond the fractions' sum). -/
def bucketAux : List ℚ → ℚ → Option Nat
  | [], _ => none
  | f :: rest, x =>
    if x < f then some 0
    else (bucketAux rest (x - f)).map (fun n => n + 1)

/-- Modelled from the spec: exact-mode assignment of a mate pair — a
reproducible hash of (query name, seed) mapped into the cumulative fraction
intervals, computed once per pair. -/
def assignBucket (hash : String → Nat → ℚ) (fracs : List ℚ) (seed : Nat) (q : String) :
    Option Nat :=
  bucketAux fracs (hash q seed)

/-- Modelled from the spec: `partitionExact` — bucket `k` receives exactly
the reads whose pair is assigned to `k`; the input collection is not
mutated. -/
def partitionExact (hash : String → Nat → ℚ) (reads : List BRead) (fracs : List ℚ)
    (seed : Nat) : List (List BRead) :=
  (List.range fracs.length).map
    (fun k => reads.filter (fun r => assignBucket hash fracs seed r.qname = some k))

/-- Modelled from the spec: a per-region weight table entry. -/
structure WRegion where
  start : Nat
  stop : Nat
  weight : ℚ
deriving DecidableEq

/-- Modelled from the spec: weight of the region overlapping a position;
positions with no table entry default to weight 0. -/
def lookupWeight (tbl : List WRegion) (p : Nat) : ℚ :=
  match tbl.find? (fun w => decide (w.start ≤ p) && decide (p < w.stop)) with
  | some w => w.weight
  | none => 0

def maxWeight (tbl : List WRegion) : ℚ :=
  (tbl.map WRegion.weight).foldl max 0

/-- Modelled from the spec: the genomic position a pair is looked up at —
the table lookup happens once per mate pair, so it uses the pair's (first
listed) record. -/
def pairPos (reads : List BRead) (q : String) : Nat :=
  match reads.find? (fun r => r.qname = q) with
  | some r => r.pos
  | none => 0

/-- Modelled from the spec: weighted-mode keep decision for a mate pair —
drawn with probability proportional to the overlapping region's weight
(weight 0 or no entry: excluded), computed once per pair. -/
def weightedKeep (hash : String → Nat → ℚ) (tbl : List WRegion) (seed : Nat)
    (reads : List BRead) (q : String) : Bool :=
  let w := lookupWeight tbl (pairPos reads q)
  decide (0 < w) && decide (hash q seed * maxWeight tbl < w)

/-- Modelled from the spec: `partitionWeighted` — the single fractionated
output stream. -/
def partitionWeighted (hash : String → Nat → ℚ) (reads : List BRead) (tbl : List WRegion)
    (seed : Nat) : List BRead :=
  reads.filter (fun r => weightedKeep hash tbl seed reads r.qname)

/-- C1: partitioning assigns each mate pair to exactly one bucket, applied
to both mates: in exact mode two reads with one query name can only appear
in one bucket, and in weighted mode one mate of a pair is kept exactly when
the other is — for every hash, seed, read collection and fraction spec. -/
theorem mate_pair_never_split (hash : String → Nat → ℚ) (reads : List BRead)
    (fracs : List ℚ) (tbl : List WRegion) (seed : Nat) (r1 r2 : BRead) (k1 k2 : Nat)
    (hq : r1.qname = r2.qname) :
    (r1 ∈ (partitionExact hash reads fracs seed).getD k1 [] →
     r2 ∈ (partitionExact hash reads fracs seed).getD k2 [] → k1 = k2)
    ∧ (r1 ∈ reads → r2 ∈ reads →
       (r1 ∈ partitionWeighted hash reads tbl seed ↔
        r2 ∈ partitionWeighted hash reads tbl seed)) := by
  constructor
  · intro h1 h2
    have hb : ∀ (k : Nat) (r : BRead), r ∈ (partitionExact hash reads fracs seed).getD k [] →
        assignBucket hash fracs seed r.qname = some k := by
      intro k r hr
      by_cases hk : k < fracs.length
      · rw [partitionExact, List.getD, List.get?_map, List.get?_range hk] at hr
        simp only [Option.map_some', Option.getD_some] at hr
        exact of_decide_eq_true (List.mem_filter.mp hr).2
      · rw [partitionExact, List.getD,
          List.get?_eq_none.mpr (by simpa using Nat.le_of_not_lt hk)] at hr
        simp at hr
    have e1 := hb k1 r1 h1
    have e2 := hb k2 r2 h2
    rw [hq] at e1
    rw [e1] at e2
    exact Option.some.inj e2
  · intro hm1 hm2
    simp only [partitionWeighted, List.mem_filter, hm1, hm2, true_and, hq]

/-- C1 witness: two mates of pair p1 among three reads, split exactly into
halves and fractionated by one weighted region. -/
theorem mate_pair_never_split_witness :
    (BRead.mk "p1" true 5
        ∈ (partitionExact (fun _ _ => 0) [⟨"p1", true, 5⟩, ⟨"p1", false, 9⟩, ⟨"p2", true, 3⟩]
            [1/2, 1/2] 11).getD 0 [] →
     BRead.mk "p1" false 9
        ∈ (partitionExact (fun _ _ => 0) [⟨"p1", true, 5⟩, ⟨"p1", false, 9⟩, ⟨"p2", true, 3⟩]
            [1/2, 1/2] 11).getD 0 [] → (0 : Nat) = 0)
    ∧ (BRead.mk "p1" true 5 ∈ [BRead.mk "p1" true 5, ⟨"p1", false, 9⟩, ⟨"p2", true, 3⟩] →
       BRead.mk "p1" false 9 ∈ [BRead.mk "p1" true 5, ⟨"p1", false, 9⟩, ⟨"p2", true, 3⟩] →
       (BRead.mk "p1" true 5
          ∈ partitionWeighted (fun _ _ => 0)
              [⟨"p1", true, 5⟩, ⟨"p1", false, 9⟩, ⟨"p2", true, 3⟩] [⟨0, 10, 1⟩] 11 ↔
        BRead.mk "p1" false 9
          ∈ partitionWeighted (fun _ _ => 0)
              [⟨"p1", true, 5⟩, ⟨"p1", false, 9⟩, ⟨"p2", true, 3⟩] [⟨0, 10, 1⟩] 11)) :=
  mate_pair_never_split (fun _ _ => 0) [⟨"p1", true, 5⟩, ⟨"p1", false, 9⟩, ⟨"p2", true, 3⟩]
    [1/2, 1/2] [⟨0, 10, 1⟩] 11 ⟨"p1", true, 5⟩ ⟨"p1", false, 9⟩ 0 0 rfl

/-! ## ReadSampler (`ReadSim`): modelled from the spec.
The class is not among the repository's files; `genBreaks` and
`assemblyTest` (benchmark.cpp lines 252-254, 360-361) only call it.  The
shared pseudo-random stream is a parameter `g : Nat → Nat`; each draw
consumes one fixed stream index so the SNV-then-indel order of the spec is
kept. -/

/-- A draw from the stream mapped into `[0,1)`. -/
def unitDraw (g : Nat → Nat) (i : Nat) : ℚ := ((g i % 1000000 : Nat) : ℚ) / 1000000

/-- Modelled from the spec: an allele — sequence with relative weight. -/
structure Allele where
  seq : List Char
  weight : ℚ
deriving DecidableEq

def complementBase : Char → Char
  | 'A' => 'T'
  | 'T' => 'A'
  | 'C' => 'G'
  | 'G' => 'C'
  | c => c

/-- Reverse complement, as mate 2 of a pair is emitted. -/
def revComp (s : List Char) : List Char := (s.map complementBase).reverse

/-- The window of `len` bases at offset `off`. -/
def window (s : List Char) (off len : Nat) : List Char := (s.drop off).take len

/-- One of the three alternate bases of `c`, chosen by a stream value. -/
def altBase (c : Char) (r : Nat) : Char :=
  (['A', 'C', 'G', 'T'].filter (fun b => b ≠ c)).getD (r % 3) 'A'

/-- Modelled from the spec: the SNV pass — each base substituted with
probability `rate`, uniformly among the alternates (two stream indices per
base, starting at `c0`). -/
def snvPass (g : Nat → Nat) (c0 : Nat) (rate : ℚ) (read : List Char) : List Char :=
  (List.range read.length).zipWith
    (fun i b => if unitDraw g (c0 + 2 * i) < rate then altBase b (g (c0 + 2 * i + 1)) else b)
    read

def insertAt (l : List Char) (p : Nat) (b : Char) : List Char :=
  l.take p ++ b :: l.drop p

def removeAt (l : List Char) (p : Nat) : List Char :=
  l.take p ++ l.drop (p + 1)

/-- Modelled from the spec: the per-read insertion pass — with probability
`rate`, one random base at a random position, the final length kept constant
by trimming the tail (stream indices `c0..c0+2`). -/
def insPass (g : Nat → Nat) (c0 : Nat) (rate : ℚ) (read : List Char) : List Char :=
  if unitDraw g c0 < rate then
    (insertAt read (g (c0 + 1) % (read.length + 1))
      (['A', 'C', 'G', 'T'].getD (g (c0 + 2) % 4) 'A')).take read.length
  else read

/-- Modelled from the spec: the per-read deletion pass — with probability
`rate`, one base removed at a random position and the tail padded by
re-sampling the next base of the source allele (stream indices `c0`,
`c0+1`). -/
def delPass (g : Nat → Nat) (c0 : Nat) (rate : ℚ) (source : List Char) (soff : Nat)
    (read : List Char) : List Char :=
  if unitDraw g c0 < rate then
    (removeAt read (g (c0 + 1) % (read.length + 1)) ++ [source.getD (soff + read.length) 'N']).take
      read.length
  else read

/-- Modelled from the spec: error injection in the fixed order — SNV pass,
then insertion, then deletion. -/
def injectErrors (g : Nat → Nat) (c0 : Nat) (snvRate insRate delRate : ℚ)
    (source : List Char) (soff : Nat) (read : List Char) : List Char :=
  delPass g (c0 + 2 * read.length + 3) delRate source soff
    (insPass g (c0 + 2 * read.length) insRate (snvPass g c0 snvRate read))

def totalWeight (as : List Allele) : ℚ := (as.map Allele.weight).sum

/-- Cumulative-weight walk used to distribute reads across alleles. -/
def pickAlleleAux : List Allele → ℚ → Option Allele
  | [], _ => none
  | a :: rest, x => if x < a.weight then some a else pickAlleleAux rest (x - a.weight)

/-- Modelled from the spec: the allele a read is drawn from, proportional to
weight (with the first allele as the degenerate fallback). -/
def pickAllele (as : List Allele) (u : ℚ) : Option Allele :=
  match pickAlleleAux as (u * totalWeight as) with
  | some a => some a
  | none => as.head?

def totalAlleleLength (as : List Allele) : Nat :=
  (as.map (fun a => a.seq.length)).sum

/-- Modelled from the spec: the target read count
`ceil(coverage * totalAlleleLength / readLength)`. -/
def targetReadCount (cov : ℚ) (totalLen readLength : Nat) : Nat :=
  (Int.ceil (cov * (totalLen : ℚ) / (readLength : ℚ))).toNat

/-- Modelled from the spec: the stand-in for the normal insert-size draw,
centred at the mean (clipping below happens at the use site). -/
def drawInsert (g : Nat → Nat) (i : Nat) (mean sd : Nat) : Nat :=
  mean + g i % (2 * sd + 1)

/-- Sampler parameters of one `samplePairedEndReadsToCoverage` call. -/
structure SamplerCfg where
  coverage : ℚ
  snvRate : ℚ
  insRate : ℚ
  delRate : ℚ
  readLength : Nat
  insertMean : Nat
  insertSd : Nat
deriving DecidableEq

/-- Stream indices one mate pair consumes. -/
def pairBudget (readLength : Nat) : Nat := 2 * (2 * readLength + 5) + 3

/-- Modelled from the spec: one paired-end draw — allele by weight, uniform
start offset, insert size clipped into `[readLength, alleleLength - off]`,
mate 1 the window at the offset, mate 2 the reverse complement of the
downstream window, both error-injected. -/
def sampleOnePair (g : Nat → Nat) (as : List Allele) (cfg : SamplerCfg) (c0 : Nat) :
    List Char × List Char :=
  match pickAllele as (unitDraw g c0) with
  | none => ([], [])
  | some a =>
    let L := cfg.readLength
    let off := g (c0 + 1) % (a.seq.length - L + 1)
    let isize :=
      max L (min (a.seq.length - off) (drawInsert g (c0 + 2) cfg.insertMean cfg.insertSd))
    let r1 := injectErrors g (c0 + 3) cfg.snvRate cfg.insRate cfg.delRate a.seq off
      (window a.seq off L)
    let r2 := injectErrors g (c0 + 3 + (2 * L + 5)) cfg.snvRate cfg.insRate cfg.delRate a.seq
      (off + isize - L) (revComp (window a.seq (off + isize - L) L))
    (r1, r2)

/-- Modelled from the spec: the two mate collections, one pair per step. -/
def samplePairs (g : Nat → Nat) (as : List Allele) (cfg : SamplerCfg) :
    Nat → Nat → List (List Char) × List (List Char)
  | 0, _ => ([], [])
  | n + 1, c0 =>
    let p := sampleOnePair g as cfg c0
    let m := samplePairs g as cfg n (c0 + pairBudget cfg.readLength)
    (p.1 :: m.1, p.2 :: m.2)

inductive SampleErr
  | alleleTooShort
deriving DecidableEq

/-- Modelled from the spec: `samplePairedEndReadsToCoverage` — fails with
`AlleleTooShort` when the read length exceeds the shortest allele, otherwise
emits the paired mate collections, half the target count per mate. -/
def samplePairedEndReadsToCoverage (g : Nat → Nat) (as : List Allele) (cfg : SamplerCfg) :
    Except SampleErr (List (List Char) × List (List Char)) :=
  if as.any (fun a => a.seq.length < cfg.readLength) then .error .alleleTooShort
  else .ok (samplePairs g as cfg
    (targetReadCount cfg.coverage (totalAlleleLength as) cfg.readLength / 2) 0)

lemma snvPass_length (g : Nat → Nat) (c0 : Nat) (rate : ℚ) (read : List Char) :
    (snvPass g c0 rate read).length = read.length := by
  simp [snvPass]

lemma insertAt_length (l : List Char) (p : Nat) (b : Char) :
    (insertAt l p b).length = l.length + 1 := by
  simp [insertAt]
  omega

lemma insPass_length (g : Nat → Nat) (c0 : Nat) (rate : ℚ) (read : List Char) :
    (insPass g c0 rate read).length = read.length := by
  rw [insPass]
  split
  · simp [insertAt_length]
  · rfl

lemma removeAt_length (l : List Char) (p : Nat) :
    l.length - 1 ≤ (removeAt l p).length ∧ (removeAt l p).length ≤ l.length := by
  simp [removeAt]
  omega

lemma delPass_length (g : Nat → Nat) (c0 : Nat) (rate : ℚ) (source : List Char) (soff : Nat)
    (read : List Char) : (delPass g c0 rate source soff read).length = read.length := by
  rw [delPass]
  split
  · have h := removeAt_length read (g (c0 + 1) % (read.length + 1))
    simp only [List.length_take, List.length_append, List.length_cons, List.length_nil]
    omega
  · rfl

lemma injectErrors_length (g : Nat → Nat) (c0 : Nat) (snvRate insRate delRate : ℚ)
    (source : List Char) (soff : Nat) (read : List Char) :
    (injectErrors g c0 snvRate insRate delRate source soff read).length = read.length := by
  rw [injectErrors, delPass_length, insPass_length, snvPass_length]

lemma revComp_length (s : List Char) : (revComp s).length = s.length := by
  simp [revComp]

lemma window_length (s : List Char) (off len : Nat) (h : off + len ≤ s.length) :
    (window s off len).length = len := by
  simp [window]
  omega

lemma pickAlleleAux_mem : ∀ (as : List Allele) (x : ℚ) (a : Allele),
    pickAlleleAux as x = some a → a ∈ as
  | [], _, _, h => by simp [pickAlleleAux] at h
  | b :: rest, x, a, h => by
    rw [pickAlleleAux] at h
    split at h
    · exact (Option.some.inj h) ▸ List.mem_cons_self b rest
    · exact List.mem_cons_of_mem b (pickAlleleAux_mem rest _ a h)

lemma pickAllele_mem (as : List Allele) (u : ℚ) (a : Allele)
    (h : pickAllele as u = some a) : a ∈ as := by
  rw [pickAllele] at h
  split at h
  · next b hb => exact (Option.some.inj h) ▸ pickAlleleAux_mem as _ b hb
  · exact List.mem_of_mem_head? h

lemma pickAllele_isSome (as : List Allele) (u : ℚ) (hne : as ≠ []) :
    ∃ a, pickAllele as u = some a := by
  rw [pickAllele]
  split
  · next b _ => exact ⟨b, rfl⟩
  · rcases as with _ | ⟨a, rest⟩
    · exact absurd rfl hne
    · exact ⟨a, rfl⟩

lemma sampleOnePair_lengths (g : Nat → Nat) (as : List Allele) (cfg : SamplerCfg) (c0 : Nat)
    (h : ∀ a ∈ as, cfg.readLength ≤ a.seq.length) (hne : as ≠ []) :
    (sampleOnePair g as cfg c0).1.length = cfg.readLength
    ∧ (sampleOnePair g as cfg c0).2.length = cfg.readLength := by
  obtain ⟨a, ha⟩ := pickAllele_isSome as (unitDraw g c0) hne
  have hL : cfg.readLength ≤ a.seq.length := h a (pickAllele_mem as _ a ha)
  rw [sampleOnePair, ha]
  set L := cfg.readLength with hLdef
  set off := g (c0 + 1) % (a.seq.length - L + 1) with hoff
  have hoffle : off ≤ a.seq.length - L := by
    have h2 : g (c0 + 1) % (a.seq.length - L + 1) < a.seq.length - L + 1 :=
      Nat.mod_lt _ (Nat.succ_pos _)
    omega
  set isize :=
    max L (min (a.seq.length - off) (drawInsert g (c0 + 2) cfg.insertMean cfg.insertSd)) with hisz
  have hiszL : L ≤ isize := le_max_left _ _
  have hiszle : isize ≤ a.seq.length - off := by
    have h1 : L ≤ a.seq.length - off := by omega
    exact max_le h1 (min_le_left _ _)
  constructor
  · rw [injectErrors_length, window_length]
    omega
  · rw [injectErrors_length, revComp_length, window_length]
    omega

lemma samplePairs_spec (g : Nat → Nat) (as : List Allele) (cfg : SamplerCfg)
    (h : ∀ a ∈ as, cfg.readLength ≤ a.seq.length) (hne : as ≠ []) :
    ∀ (n c0 : Nat),
      (samplePairs g as cfg n c0).1.length = n
      ∧ (samplePairs g as cfg n c0).2.length = n
      ∧ (∀ r ∈ (samplePairs g as cfg n c0).1, r.length = cfg.readLength)
      ∧ (∀ r ∈ (samplePairs g as cfg n c0).2, r.length = cfg.readLength) := by
  intro n
  induction n with
  | zero => intro c0; refine ⟨rfl, rfl, by simp [samplePairs], by simp [samplePairs]⟩
  | succ m ih =>
    intro c0
    obtain ⟨ih1, ih2, ih3, ih4⟩ := ih (c0 + pairBudget cfg.readLength)
    obtain ⟨hp1, hp2⟩ := sampleOnePair_lengths g as cfg c0 h hne
    refine ⟨by simp [samplePairs, ih1], by simp [samplePairs, ih2], ?_, ?_⟩
    · intro r hr
      rcases List.mem_cons.mp (by simpa [samplePairs] using hr) with hr | hr
      · rw [hr, hp1]
      · exact ih3 r hr
    · intro r hr
      rcases List.mem_cons.mp (by simpa [samplePairs] using hr) with hr | hr
      · rw [hr, hp2]
      · exact ih4 r hr

/-- C2: for valid inputs — every allele at least `readLength` long, positive
coverage, rates in `[0,1]` — paired-end sampling succeeds, the two mate
collections have equal size, and every emitted read has exactly
`readLength` bases. -/
theorem samplePaired_sizes_and_read_lengths (g : Nat → Nat) (as : List Allele)
    (cfg : SamplerCfg)
    (hlen : ∀ a ∈ as, cfg.readLength ≤ a.seq.length)
    (hcov : 0 < cfg.coverage)
    (hsnv : 0 ≤ cfg.snvRate ∧ cfg.snvRate ≤ 1)
    (hins : 0 ≤ cfg.insRate ∧ cfg.insRate ≤ 1)
    (hdel : 0 ≤ cfg.delRate ∧ cfg.delRate ≤ 1) :
    ∃ m1 m2, samplePairedEndReadsToCoverage g as cfg = .ok (m1, m2)
      ∧ m1.length = m2.length
      ∧ (∀ r ∈ m1, r.length = cfg.readLength)
      ∧ (∀ r ∈ m2, r.length = cfg.readLength) := by
  have hany : as.any (fun a => a.seq.length < cfg.readLength) = false := by
    rw [List.any_eq_false]
    intro a ha
    simpa using hlen a ha
  rw [samplePairedEndReadsToCoverage, hany]
  simp only [Bool.false_eq_true, if_false]
  set n := targetReadCount cfg.coverage (totalAlleleLength as) cfg.readLength / 2 with hn
  by_cases hne : as = []
  · have hn0 : n = 0 := by
      rw [hn, hne]
      simp [targetReadCount, totalAlleleLength]
    rw [hn0]
    exact ⟨[], [], rfl, rfl, by simp [samplePairs], by simp [samplePairs]⟩
  · obtain ⟨h1, h2, h3, h4⟩ := samplePairs_spec g as cfg hlen hne n 0
    exact ⟨_, _, rfl, by rw [h1, h2], h3, h4⟩

/-- C2 witness: one allele of length 8, read length 4, coverage 1. -/
theorem samplePaired_sizes_and_read_lengths_witness :
    ∃ m1 m2,
      samplePairedEndReadsToCoverage (fun k => k)
          [⟨['A', 'C', 'G', 'T', 'A', 'C', 'G', 'T'], 1⟩] ⟨1, 0, 0, 0, 4, 6, 1⟩ = .ok (m1, m2)
      ∧ m1.length = m2.length
      ∧ (∀ r ∈ m1, r.length = 4)
      ∧ (∀ r ∈ m2, r.length = 4) :=
  samplePaired_sizes_and_read_lengths (fun k => k)
    [⟨['A', 'C', 'G', 'T', 'A', 'C', 'G', 'T'], 1⟩] ⟨1, 0, 0, 0, 4, 6, 1⟩
    (by intro a ha; simp at ha; rw [ha]; decide)
    (by norm_num) (by norm_num) (by norm_num) (by norm_num)

/-! ## SyntheticGenomeBuilder (`SimGenome`): modelled from the spec.
The class is not among the repository's files; `genBreaks` (benchmark.cpp
lines 227-242, 272-275) constructs it and writes its two ledgers, one line
per entry.  The spec requires that replaying the ledgers reconstructs the
mutated sequence and its example scenario fixes the mutated length to differ
from the region length by the net indel delta alone, so the four
rearrangement types are modelled as length-preserving relinks of sub-spans;
indels are the only length-changing edits. -/

inductive SVType
  | del
  | dup
  | inv
  | tra
deriving DecidableEq

/-- Modelled from the spec: a recorded rearrangement breakpoint. -/
structure BreakRec where
  pos1 : Nat
  pos2 : Nat
  t : SVType
deriving DecidableEq

inductive IndelKind
  | ins
  | del
deriving DecidableEq

/-- Modelled from the spec: a recorded indel with its applied length. -/
structure IndelRec where
  pos : Nat
  kind : IndelKind
  len : Nat
deriving DecidableEq

/-- Modelled from the spec: apply one rearrangement by relinking the span
between the two breakpoint positions (excision-and-relink, duplication-site
relink, inversion, translocation — all span permutations). -/
def applyBreak (s : List Char) (b : BreakRec) : List Char :=
  let p1 := min b.pos1 b.pos2
  let p2 := max b.pos1 b.pos2
  let pre := s.take p1
  let mid := (s.drop p1).take (p2 - p1)
  let post := s.drop p2
  match b.t with
  | .del => pre ++ post ++ mid
  | .dup => mid ++ pre ++ post
  | .inv => pre ++ mid.reverse ++ post
  | .tra => post ++ mid ++ pre

/-- Modelled from the spec: a breakpoint drawn from the stream — two
positions in the working sequence and one of the four types. -/
def drawBreak (g : Nat → Nat) (c0 : Nat) (len : Nat) : BreakRec :=
  ⟨g c0 % (len + 1), g (c0 + 1) % (len + 1),
    [SVType.del, .dup, .inv, .tra].getD (g (c0 + 2) % 4) .inv⟩

def applyBreaks (g : Nat → Nat) : Nat → Nat → List Char → List Char × List BreakRec
  | 0, _, s => (s, [])
  | n + 1, c0, s =>
    let b := drawBreak g c0 s.length
    let r := applyBreaks g n (c0 + 3) (applyBreak s b)
    (r.1, b :: r.2)

def insBases (g : Nat → Nat) (c0 len : Nat) : List Char :=
  (List.range len).map (fun j => ['A', 'C', 'G', 'T'].getD (g (c0 + j) % 4) 'A')

/-- Modelled from the spec: one indel — kind and small uniform length from
the stream, inserted at, or deleted from, a random position of the working
sequence; the record carries the length actually applied. -/
def applyIndel (g : Nat → Nat) (c0 : Nat) (s : List Char) : List Char × IndelRec :=
  if g c0 % 2 = 0 then
    let L := 1 + g (c0 + 1) % 10
    let p := g (c0 + 2) % (s.length + 1)
    (s.take p ++ insBases g (c0 + 3) L ++ s.drop p, ⟨p, .ins, L⟩)
  else
    let L := 1 + g (c0 + 1) % 10
    let p := g (c0 + 2) % (s.length + 1)
    let eff := min L (s.length - p)
    (s.take p ++ s.drop (p + eff), ⟨p, .del, eff⟩)

def applyIndels (g : Nat → Nat) : Nat → Nat → List Char → List Char × List IndelRec
  | 0, _, s => (s, [])
  | n + 1, c0, s =>
    let q := applyIndel g c0 s
    let r := applyIndels g n (c0 + 13) q.1
    (r.1, q.2 :: r.2)

def indelDelta (r : IndelRec) : ℤ :=
  match r.kind with
  | .ins => (r.len : ℤ)
  | .del => -(r.len : ℤ)

def netIndelDelta (l : List IndelRec) : ℤ := (l.map indelDelta).sum

structure GenomeBuild where
  seq : List Char
  breaks : List BreakRec
  indels : List IndelRec

/-- Modelled from the spec: one genome-build call — the reference window,
`nbreaks` rearrangements then `nindels` indels, all drawn from the single
stream seeded once with the run's seed. -/
def simGenomeBuild (ref : Nat → Char) (regionLen nbreaks nindels seed : Nat) : GenomeBuild :=
  let g := randSeq seed
  let s0 := (List.range regionLen).map ref
  let br := applyBreaks g nbreaks 0 s0
  let ind := applyIndels g nindels (3 * nbreaks) br.1
  ⟨ind.1, br.2, ind.2⟩

def svName : SVType → String
  | .del => "DEL"
  | .dup => "DUP"
  | .inv => "INV"
  | .tra => "TRA"

/-- One line of `connections.tsv` per breakpoint. -/
def breakLine (b : BreakRec) : String :=
  toString b.pos1 ++ "\t" ++ toString b.pos2 ++ "\t" ++ svName b.t

/-- One line of `indels.tsv` per indel. -/
def indelLine (r : IndelRec) : String :=
  toString r.pos ++ "\t" ++ (match r.kind with | .ins => "I" | .del => "D") ++ "\t"
    ++ toString r.len

def breakpointLedgerLines (gb : GenomeBuild) : List String := gb.breaks.map breakLine

def indelLedgerLines (gb : GenomeBuild) : List String := gb.indels.map indelLine

lemma applyBreak_length (s : List Char) (b : BreakRec) :
    (applyBreak s b).length = s.length := by
  rcases b with ⟨p1, p2, t⟩
  cases t <;> simp [applyBreak] <;> omega

lemma applyBreaks_spec (g : Nat → Nat) :
    ∀ (n c0 : Nat) (s : List Char),
      (applyBreaks g n c0 s).1.length = s.length ∧ (applyBreaks g n c0 s).2.length = n := by
  intro n
  induction n with
  | zero => intro c0 s; exact ⟨rfl, rfl⟩
  | succ m ih =>
    intro c0 s
    obtain ⟨h1, h2⟩ := ih (c0 + 3) (applyBreak s (drawBreak g c0 s.length))
    exact ⟨by simp [applyBreaks, h1, applyBreak_length], by simp [applyBreaks, h2]⟩

lemma applyIndel_length (g : Nat → Nat) (c0 : Nat) (s : List Char) :
    ((applyIndel g c0 s).1.length : ℤ)
      = (s.length : ℤ) + indelDelta (applyIndel g c0 s).2 := by
  have hp : g (c0 + 2) % (s.length + 1) < s.length + 1 :=
    Nat.mod_lt _ (Nat.succ_pos s.length)
  rw [applyIndel]
  split
  · simp only [indelDelta, List.length_append, List.length_take, List.length_drop, insBases,
      List.length_map, List.length_range]
    omega
  · simp only [indelDelta, List.length_append, List.length_take, List.length_drop]
    omega

lemma applyIndels_spec (g : Nat → Nat) :
    ∀ (n c0 : Nat) (s : List Char),
      ((applyIndels g n c0 s).1.length : ℤ)
          = (s.length : ℤ) + netIndelDelta (applyIndels g n c0 s).2
      ∧ (applyIndels g n c0 s).2.length = n := by
  intro n
  induction n with
  | zero => intro c0 s; exact ⟨by simp [applyIndels, netIndelDelta], rfl⟩
  | succ m ih =>
    intro c0 s
    obtain ⟨h1, h2⟩ := ih (c0 + 13) (applyIndel g c0 s).1
    refine ⟨?_, by simp [applyIndels, h2]⟩
    simp only [applyIndels, netIndelDelta, List.map_cons, List.sum_cons]
    rw [h1, applyIndel_length]
    simp [netIndelDelta]
    ring

lemma simGenomeBuild_spec (ref : Nat → Char) (regionLen nbreaks nindels seed : Nat) :
    (breakpointLedgerLines (simGenomeBuild ref regionLen nbreaks nindels seed)).length = nbreaks
    ∧ (indelLedgerLines (simGenomeBuild ref regionLen nbreaks nindels seed)).length = nindels
    ∧ ((simGenomeBuild ref regionLen nbreaks nindels seed).seq.length : ℤ)
        = regionLen
          + netIndelDelta (simGenomeBuild ref regionLen nbreaks nindels seed).indels := by
  have hbr := applyBreaks_spec (randSeq seed) nbreaks 0 ((List.range regionLen).map ref)
  have hind := applyIndels_spec (randSeq seed) nindels (3 * nbreaks)
    (applyBreaks (randSeq seed) nbreaks 0 ((List.range regionLen).map ref)).1
  have e1 : (simGenomeBuild ref regionLen nbreaks nindels seed).breaks
      = (applyBreaks (randSeq seed) nbreaks 0 ((List.range regionLen).map ref)).2 := rfl
  have e2 : (simGenomeBuild ref regionLen nbreaks nindels seed).indels
      = (applyIndels (randSeq seed) nindels (3 * nbreaks)
          (applyBreaks (randSeq seed) nbreaks 0 ((List.range regionLen).map ref)).1).2 := rfl
  have e3 : (simGenomeBuild ref regionLen nbreaks nindels seed).seq
      = (applyIndels (randSeq seed) nindels (3 * nbreaks)
          (applyBreaks (randSeq seed) nbreaks 0 ((List.range regionLen).map ref)).1).1 := rfl
  refine ⟨?_, ?_, ?_⟩
  · rw [breakpointLedgerLines, List.length_map, e1]
    exact hbr.2
  · rw [indelLedgerLines, List.length_map, e2]
    exact hind.2
  · rw [e3, e2, hind.1, hbr.1]
    simp

/-- C8: a genome build over a region of length 1000 with 2 breakpoints, 3
indels and seed 42 yields exactly 2 breakpoint ledger lines and 3 indel
ledger lines, and the mutated sequence length differs from 1000 by exactly
the net indel delta — for every reference sequence filling the region. -/
theorem genome_build_scenario (ref : Nat → Char) :
    (breakpointLedgerLines (simGenomeBuild ref 1000 2 3 42)).length = 2
    ∧ (indelLedgerLines (simGenomeBuild ref 1000 2 3 42)).length = 3
    ∧ ((simGenomeBuild ref 1000 2 3 42).seq.length : ℤ)
        = 1000 + netIndelDelta (simGenomeBuild ref 1000 2 3 42).indels :=
  simGenomeBuild_spec ref 1000 2 3 42

end Snowman
